import Mathlib

/-!
A verification development for the dataview module of the
`geneos-toolkit-rs` repository (`src/dataview.rs`).

The Rust source is shallowly embedded as executable Lean definitions:

* Rust `HashMap<K, V>` is modelled as an association list with unique keys
  (`mapInsert` replaces the binding of an existing key in place and appends
  a new key at the end; `mapGet` is lookup).  Only lookup/insert are used by
  the source, so any association-list representative of the same partial
  map is observationally identical to the hash map.
* Rust `String` is Lean `String`; the total order `Ord for String`
  (byte-lexicographic, which on UTF-8 data coincides with
  codepoint-lexicographic order) is embedded as the structural comparison
  `strCmp` on the underlying character lists.
* Rust's `Vec::sort` / `sort_by_key` / `sort_by` are stable sorts; they are
  modelled by `List.insertionSort`, which is stable, over the corresponding
  embedded relation.  (A stable sort of a list for a fixed total preorder
  is unique, so any stable sort model is extensionally faithful.)
* `impl fmt::Display` writes to a formatter; the sequence of `write!`
  calls is embedded as functions producing the concatenation of everything
  written, in the same order.
* The `T: ToString` parameters of the builder API are total conversions to
  text; callers of the model pass the converted `String` directly.
-/

/-- Association-list model of `HashMap` insertion: replace the value of an
existing key in place, otherwise append the new binding at the end. -/
def mapInsert {α β : Type} [DecidableEq α] (k : α) (v : β) :
    List (α × β) → List (α × β)
  | [] => [(k, v)]
  | (k', v') :: rest =>
    if k' = k then (k, v) :: rest else (k', v') :: mapInsert k v rest

/-- Association-list model of `HashMap` lookup. -/
def mapGet {α β : Type} [DecidableEq α] (k : α) : List (α × β) → Option β
  | [] => none
  | (k', v') :: rest => if k' = k then some v' else mapGet k rest

/-- Lexicographic comparison of character lists: the embedding of Rust's
`Ord for String` (byte-lexicographic order, which agrees with per-character
order on UTF-8 data). -/
def lexCmp : List Char → List Char → Ordering
  | [], [] => .eq
  | [], _ :: _ => .lt
  | _ :: _, [] => .gt
  | a :: as, b :: bs =>
    if a < b then .lt else if b < a then .gt else lexCmp as bs

/-- Rust's `String::cmp`, embedded via `lexCmp` on the character data. -/
def strCmp (a b : String) : Ordering := lexCmp a.data b.data

/-- Rust's `str::replace(pat, rep)` on character lists: scan left to right,
replacing each (non-overlapping) occurrence of the non-empty pattern.
The source only calls this with the single-character pattern `","`. -/
def replaceList (pat rep : List Char) : List Char → List Char
  | [] => []
  | c :: rest =>
    if h : pat ≠ [] ∧ (c :: rest).take pat.length = pat then
      rep ++ replaceList pat rep ((c :: rest).drop pat.length)
    else
      c :: replaceList pat rep rest
termination_by l => l.length
decreasing_by
  · have hp : 1 ≤ pat.length := by
      cases hq : pat with
      | nil => exact absurd hq h.1
      | cons x xs => simp
    simp only [List.length_drop, List.length_cons]
    omega
  · simp only [List.length_cons]
    omega

/-- `fn escape_commas(s: &str) -> String { s.replace(",", "\\,") }` -/
def escape_commas (s : String) : String :=
  ⟨replaceList [','] ['\\', ','] s.data⟩

/-- The body of the column loop in `write_header_row`: for each column,
write a comma followed by the escaped column name. -/
def write_header_cols : List String → String
  | [] => ""
  | col :: rest => "," ++ escape_commas col ++ write_header_cols rest

/-- `fn write_header_row`: escaped row header, then one `,`-prefixed escaped
column name per entry, then a newline (`writeln!`). -/
def write_header_row (row_header : String) (columns : List String) : String :=
  escape_commas row_header ++ write_header_cols columns ++ "\n"

/-- `fn write_headlines`: for each name in `headline_order`, if it is bound
in the map, write `<!>name,value` (escaped) followed by a newline. -/
def write_headlines (headline_order : List String)
    (headlines : List (String × String)) : String :=
  match headline_order with
  | [] => ""
  | name :: rest =>
    (match mapGet name headlines with
     | some value =>
       "<!>" ++ escape_commas name ++ "," ++ escape_commas value ++ "\n"
     | none => "") ++ write_headlines rest headlines

/-- The body of the column loop in `write_data_rows`: for each column write
a comma, then the escaped cell value if the `(row, column)` key is bound. -/
def write_row_cells (row : String) (columns : List String)
    (values : List ((String × String) × String)) : String :=
  match columns with
  | [] => ""
  | col :: rest =>
    "," ++
      (match mapGet (row, col) values with
       | some value => escape_commas value
       | none => "") ++ write_row_cells row rest values

/-- The indexed row loop of `fn write_data_rows`: `i` is the running index
of `enumerate()` and `n` is `number_of_rows`; a newline is written after a
row only when `i < n - 1` (on the unsigned row count). -/
def write_data_rows_go (i n : Nat) (rows columns : List String)
    (values : List ((String × String) × String)) : String :=
  match rows with
  | [] => ""
  | row :: rest =>
    escape_commas row ++ write_row_cells row columns values ++
      (if i < n - 1 then "\n" else "") ++
      write_data_rows_go (i + 1) n rest columns values

/-- `fn write_data_rows`: iterate the rows with their enumeration index,
writing a newline after every row except the last. -/
def write_data_rows (rows columns : List String)
    (values : List ((String × String) × String)) : String :=
  write_data_rows_go 0 rows.length rows columns values

/-- The finalized `Dataview` struct (`#[derive(Debug, Default, Clone, Eq,
PartialEq)]`). -/
structure Dataview where
  row_header : String := ""
  headlines : List (String × String) := []
  headline_order : List String := []
  values : List ((String × String) × String) := []
  column_order : List String := []
  row_order : List String := []
deriving DecidableEq, Repr, Inhabited

/-- `impl Default for Dataview` (derived): every field defaults to empty. -/
def Dataview.default_value : Dataview := {}

/-- `Dataview::headline`: look up a headline value by key. -/
def Dataview.headline (dv : Dataview) (key : String) : Option String :=
  mapGet key dv.headlines

/-- `Dataview::value`: look up a cell value by row and column. -/
def Dataview.value (dv : Dataview) (row column : String) : Option String :=
  mapGet (row, column) dv.values

/-- `impl fmt::Display for Dataview`: header row, then headline lines, then
data rows, concatenated in that order. -/
def Dataview.display (dv : Dataview) : String :=
  write_header_row dv.row_header dv.column_order ++
    write_headlines dv.headline_order dv.headlines ++
    write_data_rows dv.row_order dv.column_order dv.values

/-- The `DataviewError` enum. -/
inductive DataviewError where
  | MissingRowHeader
  | MissingValue
deriving DecidableEq, Repr

/-- The `Row` helper struct: a row identifier plus an ordered cell list. -/
structure Row where
  name : String := ""
  cells : List (String × String) := []
deriving DecidableEq, Repr

/-- `Row::new(name)`: the named row with an empty cell list. -/
def Row.new (name : String) : Row := { name := name, cells := [] }

/-- `Row::add_cell(column, value)`: append a cell, preserving order. -/
def Row.add_cell (w : Row) (column value : String) : Row :=
  { w with cells := w.cells ++ [(column, value)] }

/-- The `DataviewBuilder` struct (`#[derive(Debug, Default, Clone)]`). -/
structure DataviewBuilder where
  row_header : Option String := none
  headlines : Option (List (String × String)) := none
  values : Option (List ((String × String) × String)) := none
  headline_order : List String := []
  column_order : List String := []
  row_order : List String := []
deriving DecidableEq, Repr

namespace DataviewBuilder

/-- `DataviewBuilder::new()`: `Self::default()`. -/
def new : DataviewBuilder := {}

/-- `set_row_header`: overwrite the (optional) row header. -/
def set_row_header (b : DataviewBuilder) (row_header : String) :
    DataviewBuilder :=
  { b with row_header := some row_header }

/-- `add_headline`: take the headline map (or a fresh one), append the key
to `headline_order` if unseen, and insert/overwrite the binding. -/
def add_headline (b : DataviewBuilder) (key value : String) :
    DataviewBuilder :=
  let headlines := b.headlines.getD []
  { b with
    headline_order :=
      if b.headline_order.contains key then b.headline_order
      else b.headline_order ++ [key]
    headlines := some (mapInsert key value headlines) }

/-- `add_value`: take the value map (or a fresh one), append the column to
`column_order` if unseen, append the row to `row_order` if unseen, and
insert/overwrite the `(row, column)` binding. -/
def add_value (b : DataviewBuilder) (row column value : String) :
    DataviewBuilder :=
  let values := b.values.getD []
  { b with
    column_order :=
      if b.column_order.contains column then b.column_order
      else b.column_order ++ [column]
    row_order :=
      if b.row_order.contains row then b.row_order
      else b.row_order ++ [row]
    values := some (mapInsert (row, column) value values) }

/-- The `for (col, val) in row.cells` loop of `add_row`: rebind the builder
to `add_value(row.name, col, val)` for each cell in order. -/
def add_row_loop (name : String) (b : DataviewBuilder) :
    List (String × String) → DataviewBuilder
  | [] => b
  | (col, val) :: rest => add_row_loop name (add_value b name col val) rest

/-- `add_row(row)`: run the cell loop over the row's cells. -/
def add_row (b : DataviewBuilder) (w : Row) : DataviewBuilder :=
  add_row_loop w.name b w.cells

/-- `sort_rows()`: `self.row_order.sort()` — a stable ascending sort by the
default `String` order, embedded as `strCmp`. -/
def sort_rows (b : DataviewBuilder) : DataviewBuilder :=
  { b with
    row_order :=
      b.row_order.insertionSort (fun a b' => strCmp a b' ≠ Ordering.gt) }

/-- `sort_rows_by(f)`: `self.row_order.sort_by_key(f)` — a stable ascending
sort by a derived key in an arbitrary total order `K`. -/
def sort_rows_by {K : Type} [LinearOrder K] (b : DataviewBuilder)
    (f : String → K) : DataviewBuilder :=
  { b with
    row_order := b.row_order.insertionSort (fun a b' => f a ≤ f b') }

/-- `sort_rows_with(cmp)`: `self.row_order.sort_by(cmp)` — a stable sort
placing `a` before `b` whenever `cmp a b` is not `Greater`. -/
def sort_rows_with (b : DataviewBuilder)
    (cmp : String → String → Ordering) : DataviewBuilder :=
  { b with
    row_order :=
      b.row_order.insertionSort (fun a b' => cmp a b' ≠ Ordering.gt) }

/-- `build()`: fail with `MissingRowHeader` if the header was never set,
then with `MissingValue` if the value map was never created, otherwise
assemble the `Dataview` (headlines default to the empty map). -/
def build (b : DataviewBuilder) : Except DataviewError Dataview :=
  match b.row_header with
  | none => .error .MissingRowHeader
  | some row_header =>
    match b.values with
    | none => .error .MissingValue
    | some values =>
      .ok
        { row_header := row_header
          headlines := b.headlines.getD []
          headline_order := b.headline_order
          values := values
          column_order := b.column_order
          row_order := b.row_order }

end DataviewBuilder

/-!
Specification-side definitions.  These follow the wording of the spec
(§4.3 of `spec.md`), not the source, and exist to be compared with the
source-derived rendering functions above.
-/

/-- Concatenation of a list of strings (a neutral combinator used by the
spec-side definitions below). -/
def joinAll : List String → String
  | [] => ""
  | s :: rest => s ++ joinAll rest

/-- Join lines with a line terminator after every line except the last
(the spec's rule for the data-row block). -/
def joinLinesNoTrailing : List String → String
  | [] => ""
  | [l] => l
  | l :: rest => l ++ "\n" ++ joinLinesNoTrailing rest

/-- Spec header row: the comma-escaped row header followed by one
comma-prefixed comma-escaped column name per entry of `column_order`. -/
def headerLineSpec (dv : Dataview) : String :=
  escape_commas dv.row_header ++
    joinAll (dv.column_order.map fun col => "," ++ escape_commas col)

/-- Spec headline block: one `<!>` + escaped name + `,` + escaped value
line per name in `headline_order`, each line terminated. -/
def headlineLinesSpec (dv : Dataview) : String :=
  joinAll (dv.headline_order.map fun name =>
    "<!>" ++ escape_commas name ++ "," ++
      escape_commas ((mapGet name dv.headlines).getD "") ++ "\n")

/-- Spec data row: the escaped row identifier followed, for every column in
`column_order`, by a comma plus the escaped cell value if present and
nothing otherwise. -/
def dataRowSpec (dv : Dataview) (row : String) : String :=
  escape_commas row ++
    joinAll (dv.column_order.map fun col =>
      match mapGet (row, col) dv.values with
      | some value => "," ++ escape_commas value
      | none => ",")

/-- Spec rendering: header row and terminator, headline block, then the
data rows of `row_order` in order joined with non-trailing terminators. -/
def renderSpec (dv : Dataview) : String :=
  headerLineSpec dv ++ "\n" ++ headlineLinesSpec dv ++
    joinLinesNoTrailing (dv.row_order.map (dataRowSpec dv))

/-- First-occurrence sequence of a list of names: fold that appends a name
only when it has not been seen before.  This captures the spec's
"first-seen insertion order". -/
def firstOcc (l : List String) : List String :=
  l.foldl (fun acc x => if acc.contains x then acc else acc ++ [x]) []

/-- One builder mutation, for reasoning about arbitrary operation
histories.  `sortRowsBy` is specialized to `Nat`-valued keys (the spec's
examples use the identifier length). -/
inductive BuilderOp where
  | setRowHeader (s : String)
  | addHeadline (k v : String)
  | addValue (r c v : String)
  | addRow (w : Row)
  | sortRows
  | sortRowsBy (f : String → Nat)
  | sortRowsWith (cmp : String → String → Ordering)

/-- Apply one builder mutation.  Every mutation is a total function of the
builder state: the model has no failing mutation (claim C2's
infallibility). -/
def applyOp (b : DataviewBuilder) : BuilderOp → DataviewBuilder
  | .setRowHeader s => b.set_row_header s
  | .addHeadline k v => b.add_headline k v
  | .addValue r c v => b.add_value r c v
  | .addRow w => b.add_row w
  | .sortRows => b.sort_rows
  | .sortRowsBy f => b.sort_rows_by f
  | .sortRowsWith cmp => b.sort_rows_with cmp

/-- Apply a history of builder mutations to the fresh builder. -/
def applyOps (ops : List BuilderOp) : DataviewBuilder :=
  ops.foldl applyOp DataviewBuilder.new

/-- Whether an operation is a `set_row_header` call. -/
def setsHeader : BuilderOp → Bool
  | .setRowHeader _ => true
  | _ => false

/-- Whether an operation performs at least one `add_value` insertion
(an `add_row` call does so exactly when its row has at least one cell). -/
def insertsValue : BuilderOp → Bool
  | .addValue _ _ _ => true
  | .addRow w => !w.cells.isEmpty
  | _ => false

/-- The headline keys inserted by a history, in call order. -/
def headlineKeys (ops : List BuilderOp) : List String :=
  ops.filterMap fun op =>
    match op with
    | .addHeadline k _ => some k
    | _ => none

/-- The builder chain of end-to-end scenario 1 of the spec: header `ID`,
headline `AverageAge=30`, cells (1, Name, Alice) and (1, Age, 30). -/
def exampleBuilder : DataviewBuilder :=
  ((((DataviewBuilder.new.set_row_header "ID").add_headline "AverageAge"
    "30").add_value "1" "Name" "Alice").add_value "1" "Age" "30")

/-- The dataview of end-to-end scenario 1. -/
def exampleDataview : Dataview :=
  { row_header := "ID"
    headlines := [("AverageAge", "30")]
    headline_order := ["AverageAge"]
    values := [(("1", "Name"), "Alice"), (("1", "Age"), "30")]
    column_order := ["Name", "Age"]
    row_order := ["1"] }

/-- The structural invariant of a builder state: the three order lists are
duplicate-free, membership of `row_order` / `column_order` is exactly the
set of row / column components of the keys of the value map, and
membership of `headline_order` is exactly the key set of the headline
map. -/
def builderInv (b : DataviewBuilder) : Prop :=
  b.row_order.Nodup ∧ b.column_order.Nodup ∧ b.headline_order.Nodup ∧
    (∀ r, r ∈ b.row_order ↔ ∃ c, mapGet (r, c) (b.values.getD []) ≠ none) ∧
    (∀ c, c ∈ b.column_order ↔ ∃ r, mapGet (r, c) (b.values.getD []) ≠ none) ∧
    (∀ k, k ∈ b.headline_order ↔ mapGet k (b.headlines.getD []) ≠ none)

/-- A builder used to exercise the sorting claims: rows first seen in the
order `bb`, `a`, `cc` (two of them of equal length). -/
def sortExampleBuilder : DataviewBuilder :=
  (((DataviewBuilder.new.set_row_header "id").add_value "bb" "col"
    "1").add_value "a" "col" "2").add_value "cc" "col" "3"

/-- An operation history used to exercise the build-validation claims:
a headline but no header and no cell value. -/
def headlineOnlyOps : List BuilderOp :=
  [.addHeadline "Total" "42"]

/-- An operation history exercising every kind of builder operation. -/
def mixedOps : List BuilderOp :=
  [.setRowHeader "ID", .addHeadline "AverageAge" "30",
    .addValue "1" "Name" "Alice", .addValue "1" "Age" "30",
    .addRow ((Row.new "2").add_cell "Name" "Bob"), .sortRows]

/-! Basic facts about strings, list membership and the map model. -/

theorem str_data_append (s t : String) : (s ++ t).data = s.data ++ t.data :=
  rfl

theorem str_append_assoc (a b c : String) : a ++ b ++ c = a ++ (b ++ c) :=
  String.ext (by simp [str_data_append])

theorem str_append_empty (s : String) : s ++ "" = s :=
  String.ext (by simp [str_data_append])

theorem str_empty_append (s : String) : "" ++ s = s :=
  String.ext (by simp [str_data_append])

theorem contains_iff {α : Type} [BEq α] [LawfulBEq α] (l : List α) (a : α) :
    l.contains a = true ↔ a ∈ l := by
  simp [List.contains, List.elem_iff]

theorem mapGet_mapInsert {α β : Type} [DecidableEq α] (k k' : α) (v : β)
    (m : List (α × β)) :
    mapGet k' (mapInsert k v m) =
      if k = k' then some v else mapGet k' m := by
  induction m with
  | nil => by_cases h : k = k' <;> simp [mapInsert, mapGet, h]
  | cons p rest ih =>
    obtain ⟨a, b⟩ := p
    by_cases hak : a = k
    · subst hak
      by_cases hkk : a = k' <;> simp [mapInsert, mapGet, hkk, ih]
    · by_cases hak' : a = k'
      · subst hak'
        have hk : ¬k = a := fun h => hak h.symm
        simp [mapInsert, mapGet, hak, hk, ih]
      · simp [mapInsert, mapGet, hak, hak', ih]

/-! The comma-escaping transformation. -/

theorem replaceList_comma (l : List Char) :
    replaceList [','] ['\\', ','] l =
      l.flatMap fun c => if c = ',' then ['\\', ','] else [c] := by
  induction l with
  | nil => simp [replaceList]
  | cons c rest ih =>
    rw [replaceList]
    by_cases hc : c = ','
    · subst hc
      simp [ih]
    · rw [dif_neg]
      · simp [hc, ih]
      · simp [hc]

theorem escape_commas_data (s : String) :
    (escape_commas s).data =
      s.data.flatMap fun c => if c = ',' then ['\\', ','] else [c] := by
  simp [escape_commas, replaceList_comma]

theorem escape_commas_eq (s : String) :
    escape_commas s =
      ⟨s.data.flatMap fun c => if c = ',' then ['\\', ','] else [c]⟩ :=
  String.ext (escape_commas_data s)

/-! Rendering refinement: the writer functions against the spec wording. -/

theorem write_header_cols_eq (cols : List String) :
    write_header_cols cols =
      joinAll (cols.map fun col => "," ++ escape_commas col) := by
  induction cols with
  | nil => rfl
  | cons col rest ih => simp [write_header_cols, joinAll, ih, str_append_assoc]

theorem write_headlines_eq (order : List String)
    (hl : List (String × String))
    (h : ∀ name ∈ order, mapGet name hl ≠ none) :
    write_headlines order hl =
      joinAll (order.map fun name =>
        "<!>" ++ escape_commas name ++ "," ++
          escape_commas ((mapGet name hl).getD "") ++ "\n") := by
  induction order with
  | nil => rfl
  | cons name rest ih =>
    have hname := h name (List.mem_cons_self name rest)
    obtain ⟨v, hv⟩ := Option.ne_none_iff_exists'.mp hname
    rw [write_headlines, hv]
    simp only [List.map_cons, joinAll, hv, Option.getD_some]
    rw [ih fun n hn => h n (List.mem_cons_of_mem _ hn)]

theorem write_row_cells_eq (row : String) (cols : List String)
    (vals : List ((String × String) × String)) :
    write_row_cells row cols vals =
      joinAll (cols.map fun col =>
        match mapGet (row, col) vals with
        | some value => "," ++ escape_commas value
        | none => ",") := by
  induction cols with
  | nil => rfl
  | cons col rest ih =>
    rw [write_row_cells]
    cases hm : mapGet (row, col) vals with
    | none => simp only [List.map_cons, joinAll, hm, str_append_empty, ih]
    | some v => simp only [List.map_cons, joinAll, hm, str_append_assoc, ih]

theorem write_data_rows_go_eq (cols : List String)
    (vals : List ((String × String) × String)) :
    ∀ (rows : List String) (i : Nat),
      write_data_rows_go i (i + rows.length) rows cols vals =
        joinLinesNoTrailing (rows.map fun row =>
          escape_commas row ++ write_row_cells row cols vals) := by
  intro rows
  induction rows with
  | nil => intro i; rfl
  | cons row rest ih =>
    intro i
    rw [write_data_rows_go]
    cases rest with
    | nil =>
      rw [show write_data_rows_go (i + 1) (i + [row].length)
        ([] : List String) cols vals = "" from rfl]
      simp [joinLinesNoTrailing, str_append_empty]
    | cons y ys =>
      have hn : i + (row :: y :: ys).length = (i + 1) + (y :: ys).length := by
        simp [List.length_cons]
        omega
      rw [hn]
      have hpos : i < (i + 1) + (y :: ys).length - 1 := by
        simp only [List.length_cons]
        omega
      rw [if_pos hpos, ih (i + 1)]
      simp [joinLinesNoTrailing, str_append_assoc]

theorem write_data_rows_eq (rows cols : List String)
    (vals : List ((String × String) × String)) :
    write_data_rows rows cols vals =
      joinLinesNoTrailing (rows.map fun row =>
        escape_commas row ++ write_row_cells row cols vals) := by
  have := write_data_rows_go_eq cols vals rows 0
  simpa [write_data_rows] using this

theorem display_eq_renderSpec (dv : Dataview)
    (h : ∀ name ∈ dv.headline_order, mapGet name dv.headlines ≠ none) :
    dv.display = renderSpec dv := by
  have hrow :
      (fun row => escape_commas row ++
        write_row_cells row dv.column_order dv.values) = dataRowSpec dv := by
    funext row
    rw [dataRowSpec, write_row_cells_eq]
  rw [Dataview.display, renderSpec, write_header_row, headerLineSpec,
    write_header_cols_eq, write_headlines_eq _ _ h, headlineLinesSpec,
    write_data_rows_eq, hrow]

/-! Claim theorems. -/

/-- Claim C1: for every dataview whose headline names are all bound (true
of every successfully built one), rendering to text equals the spec's
exact three-step algorithm — header row with terminator, one terminated
`<!>name,value` line per headline, then the data rows of `row_order` in
order, sparse cells rendered as bare commas, with a terminator after every
data row except the last; and the dataview built from header `ID`,
headline `AverageAge=30`, and cells (1, Name, Alice), (1, Age, 30) renders
exactly as `ID,Name,Age\n<!>AverageAge,30\n1,Alice,30` with no trailing
newline. -/
theorem claim_C1 :
    (∀ dv : Dataview,
      (∀ name ∈ dv.headline_order, mapGet name dv.headlines ≠ none) →
        dv.display = renderSpec dv) ∧
    Except.map Dataview.display exampleBuilder.build =
      .ok "ID,Name,Age\n<!>AverageAge,30\n1,Alice,30" := by
  constructor
  · exact fun dv h => display_eq_renderSpec dv h
  · have hb : exampleBuilder.build = .ok exampleDataview := rfl
    have hd : exampleDataview.display =
        "ID,Name,Age\n<!>AverageAge,30\n1,Alice,30" := by
      simp only [Dataview.display, exampleDataview, write_header_row,
        write_header_cols, write_headlines, write_row_cells,
        write_data_rows, write_data_rows_go, mapGet, escape_commas_eq]
      decide
    rw [hb]
    simp [Except.map, hd]

/-- Witness for claim C1: the scenario-1 dataview satisfies the headline
hypothesis, and the theorem applies to it. -/
theorem claim_C1_witness :
    (∀ name ∈ exampleDataview.headline_order,
      mapGet name exampleDataview.headlines ≠ none) ∧
    exampleDataview.display = renderSpec exampleDataview :=
  ⟨by decide, claim_C1.1 exampleDataview (by decide)⟩

/-- Claim C4: the escaping transformation replaces every comma character
with the two-character sequence backslash-comma and passes every other
character through unmodified — character by character, its output is the
concatenation of `['\\', ',']` for each `','` and the unchanged singleton
for every other character. -/
theorem claim_C4 : ∀ s : String,
    (escape_commas s).data =
      s.data.flatMap fun c => if c = ',' then ['\\', ','] else [c] :=
  escape_commas_data

/-- Claim C10: rendering is total on a dataview with an empty `row_order`
(such as the derived default value): it emits the header line and the
headline lines and then nothing — the data-row loop body, and with it the
`i < number_of_rows - 1` last-row check on the unsigned row count, is
never evaluated — and the default dataview renders as a single empty
header line. -/
theorem claim_C10 :
    (∀ dv : Dataview, dv.row_order = [] →
      dv.display =
        write_header_row dv.row_header dv.column_order ++
          write_headlines dv.headline_order dv.headlines) ∧
    Dataview.default_value.display = "\n" := by
  constructor
  · intro dv h
    rw [Dataview.display, h]
    rw [show write_data_rows [] dv.column_order dv.values = "" from rfl]
    rw [str_append_empty]
  · simp only [Dataview.default_value, Dataview.display, write_header_row,
      write_header_cols, write_headlines, write_data_rows,
      write_data_rows_go, escape_commas_eq]
    decide

/-- Witness for claim C10: the default dataview has an empty `row_order`
and the theorem applies to it. -/
theorem claim_C10_witness :
    Dataview.default_value.row_order = [] ∧
    Dataview.default_value.display =
      write_header_row Dataview.default_value.row_header
          Dataview.default_value.column_order ++
        write_headlines Dataview.default_value.headline_order
          Dataview.default_value.headlines :=
  ⟨rfl, claim_C10.1 Dataview.default_value rfl⟩

/-! Effects of builder operations on the header and value fields. -/

theorem add_row_loop_row_header :
    ∀ (cells : List (String × String)) (name : String)
      (b : DataviewBuilder),
      (DataviewBuilder.add_row_loop name b cells).row_header = b.row_header
  | [], _, _ => rfl
  | (c, v) :: rest, name, b =>
    add_row_loop_row_header rest name (b.add_value name c v)

theorem add_row_loop_values_ne_none :
    ∀ (cells : List (String × String)) (name : String)
      (b : DataviewBuilder), b.values ≠ none →
      (DataviewBuilder.add_row_loop name b cells).values ≠ none
  | [], _, _, h => h
  | (c, v) :: rest, name, b, _ =>
    add_row_loop_values_ne_none rest name (b.add_value name c v)
      (by simp [DataviewBuilder.add_value])

theorem add_row_values_ne_none (b : DataviewBuilder) (w : Row)
    (h : w.cells ≠ []) : (b.add_row w).values ≠ none := by
  rw [DataviewBuilder.add_row]
  cases hw : w.cells with
  | nil => exact absurd hw h
  | cons x xs =>
    obtain ⟨c, v⟩ := x
    exact add_row_loop_values_ne_none xs w.name _
      (by simp [DataviewBuilder.add_value])

theorem foldl_row_header_none (ops : List BuilderOp) :
    ∀ b : DataviewBuilder,
      ((ops.foldl applyOp b).row_header = none ↔
        (b.row_header = none ∧ ∀ op ∈ ops, setsHeader op = false)) := by
  induction ops with
  | nil => intro b; simp
  | cons op rest ih =>
    intro b
    rw [List.foldl_cons, ih]
    cases op with
    | setRowHeader s =>
      simp [applyOp, DataviewBuilder.set_row_header, setsHeader]
    | addHeadline k v =>
      simp [applyOp, DataviewBuilder.add_headline, setsHeader, and_assoc]
    | addValue r c v =>
      simp [applyOp, DataviewBuilder.add_value, setsHeader, and_assoc]
    | addRow w =>
      simp [applyOp, DataviewBuilder.add_row, add_row_loop_row_header,
        setsHeader, and_assoc]
    | sortRows => simp [applyOp, DataviewBuilder.sort_rows, setsHeader]
    | sortRowsBy f => simp [applyOp, DataviewBuilder.sort_rows_by, setsHeader]
    | sortRowsWith cmp =>
      simp [applyOp, DataviewBuilder.sort_rows_with, setsHeader]

theorem foldl_values_none (ops : List BuilderOp) :
    ∀ b : DataviewBuilder,
      ((ops.foldl applyOp b).values = none ↔
        (b.values = none ∧ ∀ op ∈ ops, insertsValue op = false)) := by
  induction ops with
  | nil => intro b; simp
  | cons op rest ih =>
    intro b
    rw [List.foldl_cons, ih]
    cases op with
    | setRowHeader s =>
      simp [applyOp, DataviewBuilder.set_row_header, insertsValue]
    | addHeadline k v =>
      simp [applyOp, DataviewBuilder.add_headline, insertsValue]
    | addValue r c v =>
      simp [applyOp, DataviewBuilder.add_value, insertsValue]
    | addRow w =>
      cases hw : w.cells with
      | nil =>
        have hb : b.add_row w = b := by
          rw [DataviewBuilder.add_row, hw]
          rfl
        simp [applyOp, hb, insertsValue, hw]
      | cons x xs =>
        have hb := add_row_values_ne_none b w (by rw [hw]; simp)
        simp [applyOp, insertsValue, hw, hb]
    | sortRows => simp [applyOp, DataviewBuilder.sort_rows, insertsValue]
    | sortRowsBy f =>
      simp [applyOp, DataviewBuilder.sort_rows_by, insertsValue]
    | sortRowsWith cmp =>
      simp [applyOp, DataviewBuilder.sort_rows_with, insertsValue]

/-! Characterization of the two build failures. -/

theorem build_error_header_iff (b : DataviewBuilder) :
    b.build = .error .MissingRowHeader ↔ b.row_header = none := by
  cases hh : b.row_header with
  | none => simp [DataviewBuilder.build, hh]
  | some hdr =>
    cases hv : b.values with
    | none => simp [DataviewBuilder.build, hh, hv]
    | some m => simp [DataviewBuilder.build, hh, hv]

theorem build_error_value_iff (b : DataviewBuilder) :
    b.build = .error .MissingValue ↔
      (b.row_header ≠ none ∧ b.values = none) := by
  cases hh : b.row_header with
  | none => simp [DataviewBuilder.build, hh]
  | some hdr =>
    cases hv : b.values with
    | none => simp [DataviewBuilder.build, hh, hv]
    | some m => simp [DataviewBuilder.build, hh, hv]

theorem build_ok_of_set (b : DataviewBuilder) (h1 : b.row_header ≠ none)
    (h2 : b.values ≠ none) : ∃ dv, b.build = .ok dv := by
  cases hh : b.row_header with
  | none => exact absurd hh h1
  | some hdr =>
    cases hv : b.values with
    | none => exact absurd hv h2
    | some m =>
      exact ⟨_, by unfold DataviewBuilder.build; rw [hh, hv]⟩

/-- Claim C2: building fails with `MissingRowHeader` exactly when no
`set_row_header` call ever occurred (taking precedence over everything
else); otherwise it fails with `MissingValue` exactly when no `add_value`
insertion ever occurred (headlines do not count, and an `add_row` with a
non-empty cell list counts); otherwise it succeeds.  Builder mutations are
total functions of the builder state (`applyOp`), so no mutation can
fail. -/
theorem claim_C2 : ∀ ops : List BuilderOp,
    ((applyOps ops).build = .error .MissingRowHeader ↔
      ∀ op ∈ ops, setsHeader op = false) ∧
    ((applyOps ops).build = .error .MissingValue ↔
      ((∃ op ∈ ops, setsHeader op = true) ∧
        ∀ op ∈ ops, insertsValue op = false)) ∧
    ((∃ op ∈ ops, setsHeader op = true) →
      (∃ op ∈ ops, insertsValue op = true) →
      ∃ dv, (applyOps ops).build = .ok dv) := by
  intro ops
  have h1 : (applyOps ops).row_header = none ↔
      ∀ op ∈ ops, setsHeader op = false := by
    rw [applyOps, foldl_row_header_none ops DataviewBuilder.new]
    simp [DataviewBuilder.new]
  have h2 : (applyOps ops).values = none ↔
      ∀ op ∈ ops, insertsValue op = false := by
    rw [applyOps, foldl_values_none ops DataviewBuilder.new]
    simp [DataviewBuilder.new]
  have h1' : (applyOps ops).row_header ≠ none ↔
      ∃ op ∈ ops, setsHeader op = true := by
    rw [Ne, h1]
    simp
  refine ⟨(build_error_header_iff _).trans h1,
    (build_error_value_iff _).trans (and_congr h1' h2), ?_⟩
  intro hs hi
  apply build_ok_of_set
  · exact h1'.mpr hs
  · intro hv
    obtain ⟨op, hop, hiop⟩ := hi
    have := h2.mp hv op hop
    simp [hiop] at this

/-- Witness for claim C2: a history that sets the header and inserts
values builds successfully. -/
theorem claim_C2_witness :
    (∃ op ∈ mixedOps, setsHeader op = true) ∧
    (∃ op ∈ mixedOps, insertsValue op = true) ∧
    ∃ dv, (applyOps mixedOps).build = .ok dv :=
  ⟨by decide, by decide,
    (claim_C2 mixedOps).2.2 (by decide) (by decide)⟩

/-! Inversion of a successful build, and membership after insertions. -/

theorem build_ok_inv (b : DataviewBuilder) (dv : Dataview)
    (h : b.build = .ok dv) :
    b.row_header = some dv.row_header ∧
      dv.headlines = b.headlines.getD [] ∧
      dv.headline_order = b.headline_order ∧
      b.values = some dv.values ∧
      dv.column_order = b.column_order ∧
      dv.row_order = b.row_order := by
  cases hh : b.row_header with
  | none => simp [DataviewBuilder.build, hh] at h
  | some hdr =>
    cases hv : b.values with
    | none => simp [DataviewBuilder.build, hh, hv] at h
    | some m =>
      simp only [DataviewBuilder.build, hh, hv, Except.ok.injEq] at h
      subst h
      exact ⟨rfl, rfl, rfl, rfl, rfl, rfl⟩

theorem mem_add_value_column_order (b : DataviewBuilder) (r c v : String) :
    c ∈ (b.add_value r c v).column_order := by
  simp only [DataviewBuilder.add_value]
  by_cases h : b.column_order.contains c = true
  · rw [if_pos h]
    exact (contains_iff _ _).mp h
  · rw [if_neg h]
    simp

theorem mem_add_value_row_order (b : DataviewBuilder) (r c v : String) :
    r ∈ (b.add_value r c v).row_order := by
  simp only [DataviewBuilder.add_value]
  by_cases h : b.row_order.contains r = true
  · rw [if_pos h]
    exact (contains_iff _ _).mp h
  · rw [if_neg h]
    simp

theorem mem_add_headline_order (b : DataviewBuilder) (k v : String) :
    k ∈ (b.add_headline k v).headline_order := by
  simp only [DataviewBuilder.add_headline]
  by_cases h : b.headline_order.contains k = true
  · rw [if_pos h]
    exact (contains_iff _ _).mp h
  · rw [if_neg h]
    simp

/-- Claim C6: a second `add_value` for the same `(row, column)` key
overwrites the value while leaving `column_order` and `row_order` exactly
as after the first insertion (so every index is unchanged), and after a
successful build the looked-up cell holds the second value; `add_headline`
with a repeated key likewise overwrites without moving `headline_order`. -/
theorem claim_C6 : ∀ (b : DataviewBuilder) (r c v1 v2 k w1 w2 : String),
    mapGet (r, c) (((b.add_value r c v1).add_value r c v2).values.getD [])
      = some v2 ∧
    ((b.add_value r c v1).add_value r c v2).column_order =
      (b.add_value r c v1).column_order ∧
    ((b.add_value r c v1).add_value r c v2).row_order =
      (b.add_value r c v1).row_order ∧
    (∀ dv, ((b.add_value r c v1).add_value r c v2).build = .ok dv →
      dv.value r c = some v2) ∧
    mapGet k (((b.add_headline k w1).add_headline k w2).headlines.getD [])
      = some w2 ∧
    ((b.add_headline k w1).add_headline k w2).headline_order =
      (b.add_headline k w1).headline_order := by
  intro b r c v1 v2 k w1 w2
  have hval : mapGet (r, c)
      (((b.add_value r c v1).add_value r c v2).values.getD []) = some v2 := by
    simp [DataviewBuilder.add_value, mapGet_mapInsert]
  refine ⟨hval, ?_, ?_, ?_, ?_, ?_⟩
  · conv_lhs => rw [DataviewBuilder.add_value]
    rw [if_pos ((contains_iff _ _).mpr (mem_add_value_column_order b r c v1))]
  · conv_lhs => rw [DataviewBuilder.add_value]
    rw [if_pos ((contains_iff _ _).mpr (mem_add_value_row_order b r c v1))]
  · intro dv hdv
    have hinv := build_ok_inv _ dv hdv
    have hv := hinv.2.2.2.1
    rw [Dataview.value]
    have : ((b.add_value r c v1).add_value r c v2).values.getD []
        = dv.values := by rw [hv]; rfl
    rw [← this]
    exact hval
  · simp [DataviewBuilder.add_headline, mapGet_mapInsert]
  · conv_lhs => rw [DataviewBuilder.add_headline]
    rw [if_pos ((contains_iff _ _).mpr (mem_add_headline_order b k w1))]

/-- Witness for claim C6: the overwrite scenario at concrete strings, with
the built dataview holding the second value. -/
theorem claim_C6_witness :
    (((DataviewBuilder.new.set_row_header "H").add_value "r" "c"
        "1").add_value "r" "c" "2").build =
      .ok (Dataview.mk "H" [] [] [(("r", "c"), "2")] ["c"] ["r"]) ∧
    Dataview.value
        (Dataview.mk "H" [] [] [(("r", "c"), "2")] ["c"] ["r"]) "r" "c" =
      some "2" :=
  ⟨by rfl,
    (claim_C6 (DataviewBuilder.new.set_row_header "H") "r" "c" "1" "2"
      "k" "w1" "w2").2.2.2.1 _ (by rfl)⟩

/-! The cell loop of `add_row` as a fold of `add_value`. -/

theorem add_row_loop_eq_foldl :
    ∀ (cells : List (String × String)) (name : String)
      (b : DataviewBuilder),
      DataviewBuilder.add_row_loop name b cells =
        cells.foldl (fun acc cell => acc.add_value name cell.1 cell.2) b
  | [], _, _ => rfl
  | (c, v) :: rest, name, b => by
    rw [DataviewBuilder.add_row_loop, List.foldl_cons,
      add_row_loop_eq_foldl rest name]

/-- Claim C7: `add_row` equals the left fold of `add_value(row.name, _, _)`
over the row's cell list in order; in particular a row with zero cells
leaves the builder exactly unchanged (no row, column, or value is
registered). -/
theorem claim_C7 : ∀ (b : DataviewBuilder) (w : Row),
    b.add_row w =
      w.cells.foldl (fun acc cell => acc.add_value w.name cell.1 cell.2) b ∧
    (w.cells = [] → b.add_row w = b) := by
  intro b w
  constructor
  · rw [DataviewBuilder.add_row, add_row_loop_eq_foldl]
  · intro h
    rw [DataviewBuilder.add_row, h]
    rfl

/-- Witness for claim C7: a cell-less row applied to the fresh builder is
a no-op. -/
theorem claim_C7_witness :
    (Row.new "empty").cells = [] ∧
    DataviewBuilder.new.add_row (Row.new "empty") = DataviewBuilder.new :=
  ⟨rfl, (claim_C7 DataviewBuilder.new (Row.new "empty")).2 rfl⟩

/-! Order tracking across a sequence of `add_value` calls. -/

theorem foldl_add_value_row_header :
    ∀ (ts : List (String × String × String)) (b : DataviewBuilder),
      (ts.foldl (fun acc t => acc.add_value t.1 t.2.1 t.2.2) b).row_header
        = b.row_header
  | [], _ => rfl
  | _ :: rest, b => foldl_add_value_row_header rest _

theorem foldl_add_value_values_ne_none :
    ∀ (ts : List (String × String × String)) (b : DataviewBuilder),
      b.values ≠ none →
      (ts.foldl (fun acc t => acc.add_value t.1 t.2.1 t.2.2) b).values
        ≠ none
  | [], _, h => h
  | _ :: rest, b, _ =>
    foldl_add_value_values_ne_none rest _
      (by simp [DataviewBuilder.add_value])

theorem foldl_add_value_column_order :
    ∀ (ts : List (String × String × String)) (b : DataviewBuilder),
      (ts.foldl (fun acc t => acc.add_value t.1 t.2.1 t.2.2) b).column_order
        = (ts.map fun t => t.2.1).foldl
            (fun acc x => if acc.contains x then acc else acc ++ [x])
            b.column_order
  | [], _ => rfl
  | t :: rest, b => by
    rw [List.foldl_cons, List.map_cons, List.foldl_cons,
      foldl_add_value_column_order rest]
    rfl

theorem foldl_add_value_row_order :
    ∀ (ts : List (String × String × String)) (b : DataviewBuilder),
      (ts.foldl (fun acc t => acc.add_value t.1 t.2.1 t.2.2) b).row_order
        = (ts.map fun t => t.1).foldl
            (fun acc x => if acc.contains x then acc else acc ++ [x])
            b.row_order
  | [], _ => rfl
  | t :: rest, b => by
    rw [List.foldl_cons, List.map_cons, List.foldl_cons,
      foldl_add_value_row_order rest]
    rfl

/-- Claim C3: for any sequence of `add_value` calls on a fresh builder
(with its mandatory header), the finalized dataview's `column_order` is
the first-occurrence sequence of the column names and `row_order` is the
first-occurrence sequence of the row names, independent of which pairs
were written, of their interleaving, and of repeats. -/
theorem claim_C3 : ∀ (hdr : String) (ts : List (String × String × String))
    (c1 c2 c3 r1 r2 : String),
    firstOcc (ts.map fun t => t.2.1) = [c1, c2, c3] →
    firstOcc (ts.map fun t => t.1) = [r1, r2] →
    ∃ dv, (ts.foldl (fun acc t => acc.add_value t.1 t.2.1 t.2.2)
        (DataviewBuilder.new.set_row_header hdr)).build = .ok dv ∧
      dv.column_order = [c1, c2, c3] ∧ dv.row_order = [r1, r2] := by
  intro hdr ts c1 c2 c3 r1 r2 hc hr
  have hts : ts ≠ [] := by
    intro h
    rw [h] at hc
    simp [firstOcc] at hc
  have hH : (ts.foldl (fun acc t => acc.add_value t.1 t.2.1 t.2.2)
      (DataviewBuilder.new.set_row_header hdr)).row_header ≠ none := by
    rw [foldl_add_value_row_header]
    simp [DataviewBuilder.new, DataviewBuilder.set_row_header]
  have hV : (ts.foldl (fun acc t => acc.add_value t.1 t.2.1 t.2.2)
      (DataviewBuilder.new.set_row_header hdr)).values ≠ none := by
    cases ts with
    | nil => exact absurd rfl hts
    | cons t rest =>
      rw [List.foldl_cons]
      exact foldl_add_value_values_ne_none rest _
        (by simp [DataviewBuilder.add_value])
  obtain ⟨dv, hdv⟩ := build_ok_of_set _ hH hV
  have hinv := build_ok_inv _ dv hdv
  refine ⟨dv, hdv, ?_, ?_⟩
  · rw [hinv.2.2.2.2.1, foldl_add_value_column_order]
    exact hc
  · rw [hinv.2.2.2.2.2, foldl_add_value_row_order]
    exact hr

/-- Witness for claim C3: a concrete interleaved, repeating insertion
sequence with first-seen columns `c1, c2, c3` and rows `r1, r2`. -/
theorem claim_C3_witness :
    firstOcc (([("r1", "c1", "x"), ("r1", "c2", "y"), ("r2", "c3", "z"),
        ("r2", "c1", "w"), ("r1", "c1", "x2")].map fun t => t.2.1))
      = ["c1", "c2", "c3"] ∧
    firstOcc (([("r1", "c1", "x"), ("r1", "c2", "y"), ("r2", "c3", "z"),
        ("r2", "c1", "w"), ("r1", "c1", "x2")].map fun t => t.1))
      = ["r1", "r2"] ∧
    ∃ dv, ([("r1", "c1", "x"), ("r1", "c2", "y"), ("r2", "c3", "z"),
        ("r2", "c1", "w"), ("r1", "c1", "x2")].foldl
          (fun acc t => acc.add_value t.1 t.2.1 t.2.2)
          (DataviewBuilder.new.set_row_header "hdr")).build = .ok dv ∧
      dv.column_order = ["c1", "c2", "c3"] ∧ dv.row_order = ["r1", "r2"] :=
  ⟨by decide, by decide,
    claim_C3 "hdr" [("r1", "c1", "x"), ("r1", "c2", "y"), ("r2", "c3", "z"),
      ("r2", "c1", "w"), ("r1", "c1", "x2")] "c1" "c2" "c3" "r1" "r2"
      (by decide) (by decide)⟩

/-! Order theory of the embedded string comparison. -/

theorem lexCmp_eq_iff : ∀ (l1 l2 : List Char), lexCmp l1 l2 = .eq ↔ l1 = l2
  | [], [] => by simp [lexCmp]
  | [], _ :: _ => by simp [lexCmp]
  | _ :: _, [] => by simp [lexCmp]
  | a :: as, b :: bs => by
    by_cases h1 : a < b
    · have hne : a ≠ b := ne_of_lt h1
      simp [lexCmp, h1, hne]
    · by_cases h2 : b < a
      · have hne : a ≠ b := (ne_of_lt h2).symm
        simp [lexCmp, h1, h2, hne]
      · have heq : a = b := le_antisymm (not_lt.mp h2) (not_lt.mp h1)
        simp [lexCmp, h1, h2, heq, lexCmp_eq_iff as bs]

theorem lexCmp_gt_iff : ∀ (l1 l2 : List Char),
    lexCmp l1 l2 = .gt ↔ lexCmp l2 l1 = .lt
  | [], [] => by simp [lexCmp]
  | [], _ :: _ => by simp [lexCmp]
  | _ :: _, [] => by simp [lexCmp]
  | a :: as, b :: bs => by
    by_cases h1 : a < b
    · have h2 : ¬b < a := lt_asymm h1
      simp [lexCmp, h1, h2]
    · by_cases h2 : b < a
      · simp [lexCmp, h1, h2]
      · simp [lexCmp, h1, h2, lexCmp_gt_iff as bs]

theorem lexCmp_lt_trans :
    ∀ (l1 l2 l3 : List Char), lexCmp l1 l2 = .lt → lexCmp l2 l3 = .lt →
      lexCmp l1 l3 = .lt
  | [], [], _, h1, _ => by simp [lexCmp] at h1
  | [], _ :: _, [], _, h2 => by simp [lexCmp] at h2
  | [], _ :: _, _ :: _, _, _ => by simp [lexCmp]
  | _ :: _, [], _, h1, _ => by simp [lexCmp] at h1
  | _ :: _, _ :: _, [], _, h2 => by simp [lexCmp] at h2
  | a :: as, b :: bs, c :: cs, h1, h2 => by
    by_cases hab : a < b
    · by_cases hbc : b < c
      · simp [lexCmp, lt_trans hab hbc]
      · by_cases hcb : c < b
        · simp [lexCmp, hbc, hcb] at h2
        · have hbceq : b = c := le_antisymm (not_lt.mp hcb) (not_lt.mp hbc)
          subst hbceq
          simp [lexCmp, hab]
    · by_cases hba : b < a
      · simp [lexCmp, hab, hba] at h1
      · have habeq : a = b := le_antisymm (not_lt.mp hba) (not_lt.mp hab)
        subst habeq
        simp only [lexCmp, lt_irrefl, if_false] at h1
        by_cases hac : a < c
        · simp [lexCmp, hac]
        · by_cases hca : c < a
          · simp [lexCmp, hac, hca] at h2
          · have haceq : a = c := le_antisymm (not_lt.mp hca) (not_lt.mp hac)
            subst haceq
            simp only [lexCmp, lt_irrefl, if_false] at h2 ⊢
            exact lexCmp_lt_trans as bs cs h1 h2

theorem lexCmp_ne_gt_iff (l1 l2 : List Char) :
    lexCmp l1 l2 ≠ .gt ↔ (lexCmp l1 l2 = .lt ∨ l1 = l2) := by
  constructor
  · intro hne
    cases h : lexCmp l1 l2 with
    | lt => exact Or.inl rfl
    | eq => exact Or.inr ((lexCmp_eq_iff l1 l2).mp h)
    | gt => exact absurd h hne
  · rintro (h | h)
    · simp [h]
    · have := (lexCmp_eq_iff l1 l2).mpr h
      simp [this]

theorem strCmp_ne_gt_trans (a b c : String) (h1 : strCmp a b ≠ .gt)
    (h2 : strCmp b c ≠ .gt) : strCmp a c ≠ .gt := by
  rw [strCmp, lexCmp_ne_gt_iff] at h1 h2 ⊢
  rcases h1 with h1 | h1
  · rcases h2 with h2 | h2
    · exact Or.inl (lexCmp_lt_trans _ _ _ h1 h2)
    · rw [← h2]
      exact Or.inl h1
  · rw [h1]
    exact h2

theorem strCmp_ne_gt_total (a b : String) :
    strCmp a b ≠ .gt ∨ strCmp b a ≠ .gt := by
  by_cases h : strCmp a b = .gt
  · right
    rw [strCmp, lexCmp_ne_gt_iff]
    exact Or.inl ((lexCmp_gt_iff _ _).mp h)
  · exact Or.inl h

/-- Claim C8: `sort_rows()` makes `row_order` ascending in the default
string order (and is a permutation of it); `sort_rows_with` given the
reverse comparator yields descending order; `sort_rows_by` with a length
key orders rows by identifier length ascending; both keyed/comparator
sorts are stable — a pair already in relative order whose keys compare
equal (or which the comparator does not order after each other) keeps its
relative order; and without any sort call, build passes `row_order`
through unchanged (insertion order). -/
theorem claim_C8 : ∀ b : DataviewBuilder,
    (List.Sorted (fun x y => strCmp x y ≠ Ordering.gt)
        b.sort_rows.row_order ∧
      b.sort_rows.row_order.Perm b.row_order) ∧
    (List.Sorted (fun x y => strCmp y x ≠ Ordering.gt)
        (b.sort_rows_with fun x y => strCmp y x).row_order ∧
      (b.sort_rows_with fun x y => strCmp y x).row_order.Perm
        b.row_order) ∧
    (List.Sorted (fun x y => x.length ≤ y.length)
        (b.sort_rows_by String.length).row_order ∧
      (b.sort_rows_by String.length).row_order.Perm b.row_order) ∧
    (∀ x y : String, x.length = y.length → [x, y].Sublist b.row_order →
      [x, y].Sublist (b.sort_rows_by String.length).row_order) ∧
    (∀ (cmp : String → String → Ordering) (x y : String),
      cmp x y ≠ Ordering.gt → [x, y].Sublist b.row_order →
      [x, y].Sublist (b.sort_rows_with cmp).row_order) ∧
    (∀ dv, b.build = .ok dv → dv.row_order = b.row_order) := by
  intro b
  haveI ht1 : IsTotal String (fun x y => strCmp x y ≠ Ordering.gt) :=
    ⟨strCmp_ne_gt_total⟩
  haveI hr1 : IsTrans String (fun x y => strCmp x y ≠ Ordering.gt) :=
    ⟨strCmp_ne_gt_trans⟩
  haveI ht2 : IsTotal String (fun x y => strCmp y x ≠ Ordering.gt) :=
    ⟨fun a c => (strCmp_ne_gt_total a c).symm⟩
  haveI hr2 : IsTrans String (fun x y => strCmp y x ≠ Ordering.gt) :=
    ⟨fun a c e hca hec => strCmp_ne_gt_trans e c a hec hca⟩
  haveI ht3 : IsTotal String (fun x y => x.length ≤ y.length) :=
    ⟨fun a c => Nat.le_total a.length c.length⟩
  haveI hr3 : IsTrans String (fun x y => x.length ≤ y.length) :=
    ⟨fun _ _ _ => Nat.le_trans⟩
  refine ⟨⟨?_, ?_⟩, ⟨?_, ?_⟩, ⟨?_, ?_⟩, ?_, ?_, ?_⟩
  · exact List.sorted_insertionSort _ _
  · exact List.perm_insertionSort _ _
  · exact List.sorted_insertionSort _ _
  · exact List.perm_insertionSort _ _
  · exact List.sorted_insertionSort _ _
  · exact List.perm_insertionSort _ _
  · intro x y hxy hsub
    exact List.pair_sublist_insertionSort (le_of_eq (by rw [hxy])) hsub
  · intro cmp x y hxy hsub
    exact List.pair_sublist_insertionSort hxy hsub
  · intro dv h
    exact (build_ok_inv b dv h).2.2.2.2.2

/-- Claim C9: each of the three sort operations changes only `row_order`
(replacing it with a permutation of itself); the value map, column order,
row header, headline map and headline order are untouched. -/
theorem claim_C9 {K : Type} [LinearOrder K] :
    ∀ (b : DataviewBuilder) (f : String → K)
      (cmp : String → String → Ordering),
    (b.sort_rows.values = b.values ∧
      b.sort_rows.column_order = b.column_order ∧
      b.sort_rows.row_header = b.row_header ∧
      b.sort_rows.headlines = b.headlines ∧
      b.sort_rows.headline_order = b.headline_order ∧
      b.sort_rows.row_order.Perm b.row_order) ∧
    ((b.sort_rows_by f).values = b.values ∧
      (b.sort_rows_by f).column_order = b.column_order ∧
      (b.sort_rows_by f).row_header = b.row_header ∧
      (b.sort_rows_by f).headlines = b.headlines ∧
      (b.sort_rows_by f).headline_order = b.headline_order ∧
      (b.sort_rows_by f).row_order.Perm b.row_order) ∧
    ((b.sort_rows_with cmp).values = b.values ∧
      (b.sort_rows_with cmp).column_order = b.column_order ∧
      (b.sort_rows_with cmp).row_header = b.row_header ∧
      (b.sort_rows_with cmp).headlines = b.headlines ∧
      (b.sort_rows_with cmp).headline_order = b.headline_order ∧
      (b.sort_rows_with cmp).row_order.Perm b.row_order) := by
  intro b f cmp
  exact ⟨⟨rfl, rfl, rfl, rfl, rfl, List.perm_insertionSort _ _⟩,
    ⟨rfl, rfl, rfl, rfl, rfl, List.perm_insertionSort _ _⟩,
    ⟨rfl, rfl, rfl, rfl, rfl, List.perm_insertionSort _ _⟩⟩

/-- Witness for claim C8: at a builder with rows first seen as
`bb, a, cc`, the equal-length pair `(bb, cc)` keeps its relative order
under the length-key sort, the comparator-ordered pair `(a, cc)` keeps its
relative order under a comparator sort, and build without sorting passes
the insertion order through. -/
theorem claim_C8_witness :
    (("bb" : String).length = ("cc" : String).length ∧
      [("bb" : String), "cc"].Sublist sortExampleBuilder.row_order ∧
      [("bb" : String), "cc"].Sublist
        (sortExampleBuilder.sort_rows_by String.length).row_order) ∧
    (strCmp "a" "cc" ≠ Ordering.gt ∧
      [("a" : String), "cc"].Sublist sortExampleBuilder.row_order ∧
      [("a" : String), "cc"].Sublist
        (sortExampleBuilder.sort_rows_with strCmp).row_order) ∧
    (sortExampleBuilder.build =
      .ok (Dataview.mk "id" [] []
        [(("bb", "col"), "1"), (("a", "col"), "2"), (("cc", "col"), "3")]
        ["col"] ["bb", "a", "cc"]) ∧
      (Dataview.mk "id" [] []
        [(("bb", "col"), "1"), (("a", "col"), "2"), (("cc", "col"), "3")]
        ["col"] ["bb", "a", "cc"]).row_order =
        sortExampleBuilder.row_order) :=
  ⟨⟨by decide, by decide,
    (claim_C8 sortExampleBuilder).2.2.2.1 "bb" "cc" (by decide)
      (by decide)⟩,
    ⟨by decide, by decide,
      (claim_C8 sortExampleBuilder).2.2.2.2.1 strCmp "a" "cc" (by decide)
        (by decide)⟩,
    ⟨by rfl,
      (claim_C8 sortExampleBuilder).2.2.2.2.2 _ (by rfl)⟩⟩

/-! Preservation of the builder invariant by every operation. -/

theorem mem_step_iff (l : List String) (x y : String) :
    (y ∈ if l.contains x then l else l ++ [x]) ↔ (y ∈ l ∨ y = x) := by
  by_cases hc : l.contains x = true
  · rw [if_pos hc]
    constructor
    · exact Or.inl
    · rintro (h | h)
      · exact h
      · subst h
        exact (contains_iff l y).mp hc
  · rw [if_neg hc]
    simp [List.mem_append]

theorem step_nodup (l : List String) (x : String) (h : l.Nodup) :
    (if l.contains x then l else l ++ [x]).Nodup := by
  by_cases hc : l.contains x = true
  · rw [if_pos hc]
    exact h
  · rw [if_neg hc]
    have hx : x ∉ l := fun hm => hc ((contains_iff l x).mpr hm)
    simp [List.nodup_append, h, hx]

theorem mapGet_ne_none_insert {α β : Type} [DecidableEq α] (k k' : α)
    (v : β) (m : List (α × β)) :
    mapGet k' (mapInsert k v m) ≠ none ↔
      (k' = k ∨ mapGet k' m ≠ none) := by
  rw [mapGet_mapInsert]
  by_cases h : k = k'
  · simp [h]
  · have h' : ¬k' = k := fun he => h he.symm
    simp [h, h']

theorem builderInv_new : builderInv DataviewBuilder.new := by
  refine ⟨List.nodup_nil, List.nodup_nil, List.nodup_nil, ?_, ?_, ?_⟩ <;>
    intro x <;> simp [DataviewBuilder.new, mapGet]

theorem builderInv_set_row_header (b : DataviewBuilder) (s : String)
    (h : builderInv b) : builderInv (b.set_row_header s) := h

theorem builderInv_add_headline (b : DataviewBuilder) (k v : String)
    (h : builderInv b) : builderInv (b.add_headline k v) := by
  obtain ⟨hr, hc, hh, hrm, hcm, hhm⟩ := h
  refine ⟨hr, hc, step_nodup _ _ hh, hrm, hcm, ?_⟩
  intro k'
  show k' ∈ (if b.headline_order.contains k then b.headline_order
      else b.headline_order ++ [k]) ↔
    mapGet k' (mapInsert k v (b.headlines.getD [])) ≠ none
  rw [mem_step_iff, mapGet_ne_none_insert, hhm k']
  tauto

theorem builderInv_add_value (b : DataviewBuilder) (r c v : String)
    (h : builderInv b) : builderInv (b.add_value r c v) := by
  obtain ⟨hr, hc, hh, hrm, hcm, hhm⟩ := h
  refine ⟨step_nodup _ _ hr, step_nodup _ _ hc, hh, ?_, ?_, hhm⟩
  · intro r'
    show r' ∈ (if b.row_order.contains r then b.row_order
        else b.row_order ++ [r]) ↔
      ∃ c', mapGet (r', c')
        (mapInsert (r, c) v (b.values.getD [])) ≠ none
    rw [mem_step_iff, hrm r']
    constructor
    · rintro (⟨c', hc'⟩ | hrr)
      · exact ⟨c', (mapGet_ne_none_insert _ _ _ _).mpr (Or.inr hc')⟩
      · subst hrr
        exact ⟨c, (mapGet_ne_none_insert _ _ _ _).mpr (Or.inl rfl)⟩
    · rintro ⟨c', hc'⟩
      rcases (mapGet_ne_none_insert _ _ _ _).mp hc' with hkey | hold
      · exact Or.inr (congrArg Prod.fst hkey)
      · exact Or.inl ⟨c', hold⟩
  · intro c'
    show c' ∈ (if b.column_order.contains c then b.column_order
        else b.column_order ++ [c]) ↔
      ∃ r', mapGet (r', c')
        (mapInsert (r, c) v (b.values.getD [])) ≠ none
    rw [mem_step_iff, hcm c']
    constructor
    · rintro (⟨r', hr'⟩ | hcc)
      · exact ⟨r', (mapGet_ne_none_insert _ _ _ _).mpr (Or.inr hr')⟩
      · subst hcc
        exact ⟨r, (mapGet_ne_none_insert _ _ _ _).mpr (Or.inl rfl)⟩
    · rintro ⟨r', hr'⟩
      rcases (mapGet_ne_none_insert _ _ _ _).mp hr' with hkey | hold
      · exact Or.inr (congrArg Prod.snd hkey)
      · exact Or.inl ⟨r', hold⟩

theorem builderInv_add_row_loop :
    ∀ (cells : List (String × String)) (name : String)
      (b : DataviewBuilder), builderInv b →
      builderInv (DataviewBuilder.add_row_loop name b cells)
  | [], _, _, h => h
  | (c, v) :: rest, name, b, h =>
    builderInv_add_row_loop rest name _ (builderInv_add_value b name c v h)

theorem builderInv_reorder (b : DataviewBuilder) (l : List String)
    (hperm : l.Perm b.row_order) (h : builderInv b) :
    builderInv { b with row_order := l } := by
  obtain ⟨hr, hc, hh, hrm, hcm, hhm⟩ := h
  exact ⟨hperm.symm.nodup hr, hc, hh,
    fun r => (hperm.mem_iff).trans (hrm r), hcm, hhm⟩

theorem builderInv_applyOp (b : DataviewBuilder) (op : BuilderOp)
    (h : builderInv b) : builderInv (applyOp b op) := by
  cases op with
  | setRowHeader s => exact builderInv_set_row_header b s h
  | addHeadline k v => exact builderInv_add_headline b k v h
  | addValue r c v => exact builderInv_add_value b r c v h
  | addRow w => exact builderInv_add_row_loop w.cells w.name b h
  | sortRows => exact builderInv_reorder b _ (List.perm_insertionSort _ _) h
  | sortRowsBy f =>
    exact builderInv_reorder b _ (List.perm_insertionSort _ _) h
  | sortRowsWith cmp =>
    exact builderInv_reorder b _ (List.perm_insertionSort _ _) h

theorem builderInv_foldl :
    ∀ (ops : List BuilderOp) (b : DataviewBuilder), builderInv b →
      builderInv (ops.foldl applyOp b)
  | [], _, h => h
  | op :: rest, b, h =>
    builderInv_foldl rest (applyOp b op) (builderInv_applyOp b op h)

/-! Tracking of `headline_order` across an operation history. -/

theorem add_row_loop_headline_order :
    ∀ (cells : List (String × String)) (name : String)
      (b : DataviewBuilder),
      (DataviewBuilder.add_row_loop name b cells).headline_order =
        b.headline_order
  | [], _, _ => rfl
  | (c, v) :: rest, name, b => add_row_loop_headline_order rest name _

theorem foldl_headline_order (ops : List BuilderOp) :
    ∀ b : DataviewBuilder,
      (ops.foldl applyOp b).headline_order =
        (headlineKeys ops).foldl
          (fun acc x => if acc.contains x then acc else acc ++ [x])
          b.headline_order := by
  induction ops with
  | nil => intro b; rfl
  | cons op rest ih =>
    intro b
    rw [List.foldl_cons, ih]
    cases op with
    | setRowHeader s => rfl
    | addHeadline k v => rfl
    | addValue r c v => rfl
    | addRow w =>
      have : (applyOp b (.addRow w)).headline_order = b.headline_order :=
        add_row_loop_headline_order w.cells w.name b
      rw [show headlineKeys (BuilderOp.addRow w :: rest) =
        headlineKeys rest from rfl, this]
    | sortRows => rfl
    | sortRowsBy f => rfl
    | sortRowsWith cmp => rfl

/-- Claim C5: in every successfully built dataview, after any operation
history (sorts included), `row_order` and `column_order` are
duplicate-free and their membership is exactly the set of row
(respectively column) components of the keys of the value map, and
`headline_order` is exactly the duplicate-free key set of the headline
map in first-insertion order. -/
theorem claim_C5 : ∀ (ops : List BuilderOp) (dv : Dataview),
    (applyOps ops).build = .ok dv →
    dv.row_order.Nodup ∧ dv.column_order.Nodup ∧
    (∀ r, r ∈ dv.row_order ↔ ∃ c, mapGet (r, c) dv.values ≠ none) ∧
    (∀ c, c ∈ dv.column_order ↔ ∃ r, mapGet (r, c) dv.values ≠ none) ∧
    dv.headline_order.Nodup ∧
    (∀ k, k ∈ dv.headline_order ↔ mapGet k dv.headlines ≠ none) ∧
    dv.headline_order = firstOcc (headlineKeys ops) := by
  intro ops dv h
  have hinv : builderInv (applyOps ops) :=
    builderInv_foldl ops DataviewBuilder.new builderInv_new
  obtain ⟨hH, hhl, hho, hV, hco, hro⟩ := build_ok_inv _ dv h
  obtain ⟨hrn, hcn, hhn, hrm, hcm, hhm⟩ := hinv
  have hget : (applyOps ops).values.getD [] = dv.values := by
    rw [hV]
    rfl
  refine ⟨hro ▸ hrn, hco ▸ hcn, ?_, ?_, hho ▸ hhn, ?_, ?_⟩
  · intro r
    rw [hro, ← hget]
    exact hrm r
  · intro c
    rw [hco, ← hget]
    exact hcm c
  · intro k
    rw [hho, hhl]
    exact hhm k
  · rw [hho]
    exact foldl_headline_order ops DataviewBuilder.new

/-- Witness for claim C5: the mixed operation history (header, headline,
values, a batched row, a sort) builds, and the theorem applies to the
resulting dataview. -/
theorem claim_C5_witness :
    (applyOps mixedOps).build = .ok (Dataview.mk "ID"
      [("AverageAge", "30")] ["AverageAge"]
      [(("1", "Name"), "Alice"), (("1", "Age"), "30"),
        (("2", "Name"), "Bob")] ["Name", "Age"] ["1", "2"]) ∧
    (Dataview.mk "ID" [("AverageAge", "30")] ["AverageAge"]
      [(("1", "Name"), "Alice"), (("1", "Age"), "30"),
        (("2", "Name"), "Bob")] ["Name", "Age"] ["1", "2"]).row_order.Nodup ∧
    (Dataview.mk "ID" [("AverageAge", "30")] ["AverageAge"]
      [(("1", "Name"), "Alice"), (("1", "Age"), "30"),
        (("2", "Name"), "Bob")] ["Name", "Age"]
      ["1", "2"]).headline_order = firstOcc (headlineKeys mixedOps) :=
  ⟨by rfl, (claim_C5 mixedOps _ (by rfl)).1,
    (claim_C5 mixedOps _ (by rfl)).2.2.2.2.2.2⟩
